import Mathlib

/-!
Verification of the markdown2latex extension (`mdx_latex.py`) against its
natural-language specification.

Text is modelled as `List Char`.  Python string operations (`str.replace`,
`str.strip`, the specific `re` substitutions used by the source) are embedded
as executable Lean functions.  Functions whose recursion is not structural
take an explicit fuel argument; every wrapper passes a fuel that is provably
larger than the number of scan steps (each step consumes at least one
character), so the fuel-exhaustion branch is unreachable on the wrapper's
inputs.  The source is Python 2, so `\s` in its regexes is ASCII whitespace.
-/

/-- ASCII whitespace as matched by Python 2 `\s` and stripped by `str.strip()`:
space, tab, newline, carriage return, form feed, vertical tab. -/
def isPySpace (c : Char) : Bool :=
  c = ' ' || c = '\t' || c = '\n' || c = '\r' || c = '\x0c' || c = '\x0b'

/-- Python `str.strip()`: drop ASCII whitespace from both ends. -/
def pyStrip (s : List Char) : List Char :=
  ((s.dropWhile isPySpace).reverse.dropWhile isPySpace).reverse

/-- Substring test: `containsSub pat s` is true iff `pat` occurs contiguously in `s`. -/
def containsSub (pat : List Char) : List Char → Bool
  | [] => pat.isEmpty
  | c :: rest => pat.isPrefixOf (c :: rest) || containsSub pat rest

/-- Fuel-driven body of Python `str.replace`: replace every non-overlapping
occurrence of `pat` (nonempty) by `rep`, scanning left to right.  The scan
never re-examines characters produced by a replacement, exactly like
`str.replace`.  Fuel bounds the number of scan steps; each step consumes at
least one input character. -/
def pyReplaceGo (pat rep : List Char) : Nat → List Char → List Char
  | _, [] => []
  | 0, s => s
  | fuel+1, c :: rest =>
    if pat ≠ [] ∧ pat.isPrefixOf (c :: rest) then
      rep ++ pyReplaceGo pat rep fuel (List.drop (pat.length - 1) rest)
    else c :: pyReplaceGo pat rep fuel rest

/-- Python `s.replace(pat, rep)` for a nonempty `pat`. -/
def pyReplace (s pat rep : List Char) : List Char :=
  pyReplaceGo pat rep s.length s

-- ========================= ENTITY ESCAPER =================================

/-- The backtick character (used by the smart-quote rewriting). -/
def btk : Char := Char.ofNat 96

/-- Scan step of `start_single_quote_re.sub('\g<1>`', out)` for positions
past the start of the string: pattern `(^|\s|")'`, i.e. a single quote
preceded by whitespace or a double quote becomes a backtick (the matched
group character is kept).  `re.sub` scans left to right without overlap. -/
def ssqGo : List Char → List Char
  | [] => []
  | [c] => [c]
  | c :: q :: rest2 =>
    if (isPySpace c || c = '"') && q = '\'' then c :: btk :: ssqGo rest2
    else c :: ssqGo (q :: rest2)

/-- Wrapper of `start_single_quote_re.sub('\g<1>`', out)`: the `^`-alternative matches
the empty string at position 0, so a leading `'` is rewritten directly. -/
def start_single_quote_sub (s : List Char) : List Char :=
  match s with
  | [] => []
  | c :: rest => if c = '\'' then btk :: ssqGo rest else ssqGo (c :: rest)

/-- Scan step of `start_double_quote_re.sub('\g<1>``', out)` past position 0:
pattern `(^|\s|'|`)"`; a double quote preceded by whitespace, a single quote
or a backtick becomes two backticks. -/
def sdqGo : List Char → List Char
  | [] => []
  | [c] => [c]
  | c :: q :: rest2 =>
    if (isPySpace c || c = '\'' || c = btk) && q = '"' then c :: btk :: btk :: sdqGo rest2
    else c :: sdqGo (q :: rest2)

/-- Wrapper of `start_double_quote_re.sub('\g<1>``', out)` with the `^`-alternative at
position 0. -/
def start_double_quote_sub (s : List Char) : List Char :=
  match s with
  | [] => []
  | c :: rest => if c = '"' then btk :: btk :: sdqGo rest else sdqGo (c :: rest)

/-- Scan of `end_double_quote_re.sub("''\g<1>", out)`: pattern `"(,|\.|\s|$)`.
A double quote followed by comma, period, whitespace, or the end of the
string becomes `''` (the group character is kept after it).  The `$`
alternative is tried last, so when the quote is followed by a newline the
`\s` alternative consumes it. -/
def edqGo : List Char → List Char
  | [] => []
  | [c] => if c = '"' then ['\'', '\''] else [c]
  | c :: d :: rest2 =>
    if c = '"' then
      if d = ',' || d = '.' || isPySpace d then '\'' :: '\'' :: d :: edqGo rest2
      else '"' :: edqGo (d :: rest2)
    else c :: edqGo (d :: rest2)

/-- Model of `remove_html_entities` from the source: rewrite `&amp;` to `\&`, `&lt;`
and `&gt;` both to `<` (the source maps `&gt;` to `<` as well), `&quot;` to
`"`, then delete the open and close markers of the tags h1–h4, p, li, em. -/
def remove_html_entities (text : List Char) : List Char :=
  let out := pyReplace text ("&amp;".data) ("\\&".data)
  let out := pyReplace out ("&lt;".data) ("<".data)
  let out := pyReplace out ("&gt;".data) ("<".data)
  let out := pyReplace out ("&quot;".data) ("\"".data)
  (["h1", "h2", "h3", "h4", "p", "li", "em"].map String.data).foldl
    (fun o tag =>
      pyReplace (pyReplace o ("<".data ++ tag ++ ">".data) [])
        ("</".data ++ tag ++ ">".data) []) out

/-- Model of `escape_latex_entities` from the source: strip HTML entities, escape
`%`, `&`, `#`, then normalize quotes.  `{`, `}` and `$` are deliberately not
escaped. -/
def escape_latex_entities (text : List Char) : List Char :=
  let out := remove_html_entities text
  let out := pyReplace out ("%".data) ("\\%".data)
  let out := pyReplace out ("&".data) ("\\&".data)
  let out := pyReplace out ("#".data) ("\\#".data)
  let out := start_single_quote_sub out
  let out := start_double_quote_sub out
  edqGo out

/-- Model of `unescape_latex_entities`: it only reverts the `&`-escape. -/
def unescape_latex_entities (text : List Char) : List Char :=
  pyReplace text ("\\&".data) ("&".data)

/-- The set of characters that may legitimately follow a backslash after the
three escape passes of `escape_latex_entities`, in the order the passes add
them. -/
def escSet : List Char := ['#', '&', '%']

/-- Backslash-placement invariant: `bsOkGo allowed afterBS s` holds iff every
backslash of `s` is immediately followed by a character of `allowed`;
`afterBS` records whether the character before `s` was a backslash (so a
trailing backslash is rejected). -/
def bsOkGo (allowed : List Char) : Bool → List Char → Bool
  | afterBS, [] => !afterBS
  | afterBS, c :: rest =>
    (!afterBS || allowed.contains c) && bsOkGo allowed (decide (c = '\\')) rest

/-- One-pass form of a single-character `str.replace`: each occurrence of
`c` becomes `rep`, all other characters are copied. -/
def escRepOne (c : Char) (rep : List Char) : List Char → List Char
  | [] => []
  | x :: rest => (if x = c then rep else [x]) ++ escRepOne c rep rest

-- ========================= MATH POSTPROCESSOR =============================

/-- Model of `repl_1` from `MathTextPostProcessor.run`: unescape the captured group;
if the stripped text already starts with `\[` or `\begin` return it as is,
otherwise wrap it in `\[ ... \]`. -/
def repl_1 (g : List Char) : List Char :=
  let text := unescape_latex_entities g
  let tmp := pyStrip text
  if ("\\[".data).isPrefixOf tmp || ("\\begin".data).isPrefixOf tmp then text
  else "\\[".data ++ text ++ "\\]".data

/-- Model of `repl_2` from `MathTextPostProcessor.run`: unescape the captured group
and wrap it in single dollars. -/
def repl_2 (g : List Char) : List Char :=
  '$' :: unescape_latex_entities g ++ ['$']

/-- Longest suffix of a list that starts with a newline (`none` if the list
has no newline).  Used to model backtracking of `\s*` before a multi-line
`$`: the anchor holds just before the last newline of the whitespace run. -/
def lastNLSuffix : List Char → Option (List Char)
  | [] => none
  | c :: rest =>
    match lastNLSuffix rest with
    | some suf => some suf
    | none => if c = '\n' then some (c :: rest) else none

/-- Scan of `re.compile('<p>\$\$([^\$]*)\$\$\s*$', re.MULTILINE).sub(repl_1, instr)`.
At a position starting with `<p>$$`, the group takes the maximal run of
non-dollar characters; the match then needs a closing `$$` and `\s*` up to an
end of line (end of string, or just before a newline — `\s*` backtracks to the
last newline of the whitespace run).  On failure the scan advances one
character.  Fuel bounds the scan steps. -/
def patPGo : Nat → List Char → List Char
  | _, [] => []
  | 0, s => s
  | fuel+1, '<' :: 'p' :: '>' :: '$' :: '$' :: rest =>
    (let content := rest.takeWhile (fun c => c ≠ '$')
     match rest.dropWhile (fun c => c ≠ '$') with
     | '$' :: '$' :: rest3 =>
       let ws := rest3.takeWhile isPySpace
       let tail := rest3.dropWhile isPySpace
       if tail = [] then repl_1 content ++ patPGo fuel []
       else
         match lastNLSuffix ws with
         | some suf => repl_1 content ++ patPGo fuel (suf ++ tail)
         | none => '<' :: patPGo fuel ('p' :: '>' :: '$' :: '$' :: rest)
     | _ => '<' :: patPGo fuel ('p' :: '>' :: '$' :: '$' :: rest))
  | fuel+1, c :: rest => c :: patPGo fuel rest

/-- Scan of `re.compile('^\$\$([^\$]*)\$\$\s*$', re.MULTILINE).sub(repl_1, out)`.
Identical to `patPGo` except the match must start at the beginning of a line
(`ls` tracks whether the current position follows a newline or is position 0).
A position that continues a failed attempt or follows an emitted character
updates `ls` from the character just emitted. -/
def pat1Go : Nat → Bool → List Char → List Char
  | _, _, [] => []
  | 0, _, s => s
  | fuel+1, ls, '$' :: '$' :: rest =>
    if ls then
      (let content := rest.takeWhile (fun c => c ≠ '$')
       match rest.dropWhile (fun c => c ≠ '$') with
       | '$' :: '$' :: rest3 =>
         let ws := rest3.takeWhile isPySpace
         let tail := rest3.dropWhile isPySpace
         if tail = [] then repl_1 content ++ pat1Go fuel false []
         else
           match lastNLSuffix ws with
           | some suf => repl_1 content ++ pat1Go fuel false (suf ++ tail)
           | none => '$' :: pat1Go fuel false ('$' :: rest)
       | _ => '$' :: pat1Go fuel false ('$' :: rest))
    else '$' :: pat1Go fuel false ('$' :: rest)
  | fuel+1, _, c :: rest => c :: pat1Go fuel (c = '\n') rest

/-- Scan of `re.compile('([^\$])\$([^\$])').sub('\g<1>\\$\g<2>', out)`:
a single dollar between two non-dollar characters is escaped; on a match the
scan continues after the second flanking character (no overlap), on failure
it advances one character. -/
def pat2Sub : List Char → List Char
  | [] => []
  | [a] => [a]
  | [a, b] => [a, b]
  | a :: b :: c :: rest =>
    if b = '$' ∧ a ≠ '$' ∧ c ≠ '$' then a :: '\\' :: '$' :: c :: pat2Sub rest
    else a :: pat2Sub (b :: c :: rest)

/-- Scan of `re.compile('\$\$([^\$]*)\$\$').sub(repl_2, out)`: an unanchored
`$$...$$` span becomes inline math.  Fuel bounds the scan steps. -/
def pat3Go : Nat → List Char → List Char
  | _, [] => []
  | 0, s => s
  | fuel+1, '$' :: '$' :: rest =>
    (let content := rest.takeWhile (fun c => c ≠ '$')
     match rest.dropWhile (fun c => c ≠ '$') with
     | '$' :: '$' :: rest3 => repl_2 content ++ pat3Go fuel rest3
     | _ => '$' :: pat3Go fuel ('$' :: rest))
  | fuel+1, c :: rest => c :: pat3Go fuel rest

/-- The lookahead `\s-*` of the percent pass: it matches at a position iff
the next character is ASCII whitespace (`-*` also matches the empty string,
so the dashes impose no constraint). -/
def matchSpaceDashStar (rest : List Char) : Bool :=
  match rest with
  | c :: _ => isPySpace c
  | [] => false

/-- Scan of `re.sub('\%(?!\s-*)', '\\%', out)`: a percent sign is replaced by
`\%` unless the negative lookahead fails, i.e. unless it is followed by a
whitespace character.  The character before the `%` is never examined. -/
def percentPass : List Char → List Char
  | [] => []
  | c :: rest =>
    if c = '%' then
      if matchSpaceDashStar rest then '%' :: percentPass rest
      else '\\' :: '%' :: percentPass rest
    else c :: percentPass rest

/-- Model of `MathTextPostProcessor.run`: the ordered pipeline of the five regex
substitutions followed by the three cosmetic replacements. -/
def MathTextPostProcessor_run (instr : List Char) : List Char :=
  let out := patPGo instr.length instr
  let out := pat1Go out.length true out
  let out := pat2Sub out
  let out := pat3Go out.length out
  let out := percentPass out
  let out := pyReplace out ("\\lt".data) ("<".data)
  let out := pyReplace out (" * ".data) (" \\cdot ".data)
  pyReplace out ("\\del".data) ("\\partial".data)

-- ========================= TABLE POSTPROCESSOR ============================

/-- Occurrence test `pat.isPrefixOf (s.drop i)`: the literal `pat` occurs in `s` at index `i`. -/
def occursAt (pat s : List Char) (i : Nat) : Bool :=
  pat.isPrefixOf (s.drop i)

/-- An input contains a fragment matched by `re.compile('<table.*</table>', re.DOTALL)`
iff some `<table` occurrence is followed (at distance at least 6, i.e. after
the literal) by a `</table>` occurrence; with DOTALL the `.*` spans anything. -/
def containsTableFragment (s : List Char) : Bool :=
  (List.range (s.length + 1)).any fun i =>
    occursAt ("<table".data) s i &&
      (List.range (s.length + 1)).any fun j => decide (i + 6 ≤ j) && occursAt ("</table>".data) s j

/-- Index of the leftmost occurrence of `pat` in `s`. -/
def firstIndexOf (pat s : List Char) : Option Nat :=
  (List.range (s.length + 1)).find? (occursAt pat s)

/-- Index of the rightmost occurrence of `pat` in `s` at index `lo` or later. -/
def lastIndexFrom (pat s : List Char) (lo : Nat) : Option Nat :=
  ((List.range (s.length + 1)).filter fun j => decide (lo ≤ j) && occursAt pat s j).getLast?

/-- The leftmost match of `<table.*</table>` (DOTALL): the first `<table`
gives the start; the greedy `.*` extends to the last `</table>` after it,
whose end gives the end of the match.  Returns `(start, end)` as indices. -/
def tablematch_span (s : List Char) : Option (Nat × Nat) :=
  match firstIndexOf ("<table".data) s with
  | none => none
  | some i =>
    match lastIndexFrom ("</table>".data) s (i + 6) with
    | none => none
    | some j => some (i, j + 8)

/-- Body of `tablematch.findall(instr)`: all non-overlapping matches, scanning from
the end of each match.  Fuel bounds the number of matches (each consumes at
least one character). -/
def tablematch_findallGo : Nat → List Char → List (List Char)
  | 0, _ => []
  | fuel+1, s =>
    match tablematch_span s with
    | none => []
    | some (i, e) => (s.take e).drop i :: tablematch_findallGo fuel (s.drop e)

/-- Model of `tablematch.findall(instr)`. -/
def tablematch_findall (s : List Char) : List (List Char) :=
  tablematch_findallGo (s.length + 1) s

/-- Body of `tablematch.split(instr)` (the pattern has no groups): the pieces of the
input between consecutive matches; `[s]` when there is no match. -/
def tablematch_splitGo : Nat → List Char → List (List Char)
  | 0, s => [s]
  | fuel+1, s =>
    match tablematch_span s with
    | none => [s]
    | some (i, e) => s.take i :: tablematch_splitGo fuel (s.drop e)

/-- Model of `tablematch.split(instr)`. -/
def tablematch_split (s : List Char) : List (List Char) :=
  tablematch_splitGo (s.length + 1) s

/-- The `while len(nontables) > 0` loop of `TableTextPostProcessor.run`:
each iteration pops the last entry of `nontables`, then pops the last entry
of `tables` (raising `IndexError` when `tables` is empty), converts and
strips it, then pops `nontables` again (raising when it is empty).  `pop`
on a Python list removes the last element.  Fuel bounds the iterations. -/
def tableRunLoopGo (convert : List Char → List Char) :
    Nat → List (List Char) → List (List Char) → List (List Char) →
    Except (List Char) (List (List Char))
  | 0, _, _, acc => .ok acc
  | fuel+1, tables, nontables, acc =>
    match nontables.getLast? with
    | none => .ok acc
    | some b1 =>
      match tables.getLast? with
      | none => .error ("IndexError: pop from empty list".data)
      | some t =>
        match (nontables.dropLast).getLast? with
        | none => .error ("IndexError: pop from empty list".data)
        | some b2 =>
          tableRunLoopGo convert fuel tables.dropLast (nontables.dropLast).dropLast
            (acc ++ [b1, pyStrip (convert t), b2])

/-- Model of `TableTextPostProcessor.run`, parametrized by the table converter
(`Table2Latex().convert` composed with the `str()` of the DOM parse; the
loop raises before ever calling it when the input has no table).  On success
the accumulated blocks are reversed and joined with newlines. -/
def TableTextPostProcessor_run (convert : List Char → List Char) (instr : List Char) :
    Except (List Char) (List Char) :=
  let tables := tablematch_findall instr
  let nontables := tablematch_split instr
  match tableRunLoopGo convert (nontables.length + 1) tables nontables [] with
  | .error e => .error e
  | .ok blocks => .ok (List.intercalate ("\n".data) blocks.reverse)

-- ========================= DOM MODEL (xml.dom.minidom) ====================

/-- A DOM node as produced by `xml.dom.minidom`: a text node carrying
character data, or an element with a tag name, attributes, and an ordered
child list. -/
inductive XNode where
  | text (data : List Char)
  | elem (tag : List Char) (attrs : List (List Char × List Char)) (children : List XNode)
deriving Repr

/-- The tag of an element node (only called on elements in the source). -/
def XNode.tagName : XNode → List Char
  | .text _ => []
  | .elem t _ _ => t

/-- minidom `getAttribute`: the attribute's value, or the empty string when
the attribute is absent. -/
def getAttribute (e : XNode) (name : List Char) : List Char :=
  match e with
  | .text _ => []
  | .elem _ attrs _ =>
    match attrs.find? (fun p => p.1 = name) with
    | some p => p.2
    | none => []

/-- minidom `hasAttribute`. -/
def hasAttribute (e : XNode) (name : List Char) : Bool :=
  match e with
  | .text _ => false
  | .elem _ attrs _ => (attrs.find? (fun p => p.1 = name)).isSome

/-- Digit-string value for `int()`: all characters must be digits and there
must be at least one. -/
def digitsVal (ds : List Char) : Option Nat :=
  if ds ≠ [] ∧ ds.all Char.isDigit then
    some (ds.foldl (fun a c => a * 10 + (c.toNat - 48)) 0)
  else none

/-- Python `int(str)`: strip whitespace, optional sign, decimal digits;
`none` models the `ValueError` on malformed input. -/
def pyInt (s : List Char) : Option Int :=
  match pyStrip s with
  | '-' :: ds => (digitsVal ds).map (fun n => -(n : Int))
  | '+' :: ds => (digitsVal ds).map (fun n => (n : Int))
  | ds => (digitsVal ds).map (fun n => (n : Int))

-- ========================= TABLE CONVERTER ================================

/-- The transient accumulator fields of `Table2Latex`: the running per-row
column count and the running maximum. -/
structure TState where
  numcols : Int
  maxcols : Int
deriving Repr, DecidableEq

mutual

/-- Model of `Table2Latex.get_text`: a text node yields its data escaped; an element
concatenates the recursive text of its children, skipping children whose
text strips to empty. -/
def Table2Latex_get_text : XNode → List Char
  | .text d => escape_latex_entities d
  | .elem _ _ children => Table2Latex_get_textList children

/-- The `for child in element.childNodes` accumulation of `get_text`. -/
def Table2Latex_get_textList : List XNode → List Char
  | [] => []
  | c :: rest =>
    (let t := Table2Latex_get_text c
     if pyStrip t = [] then [] else t) ++ Table2Latex_get_textList rest

end

/-- The `notLast` test of `Table2Latex.process_cell`: true iff the
immediately next sibling exists, is an element node, and is a `td` or `th`.
Only the immediate next sibling is examined. -/
def notLast (nextSiblings : List XNode) : Bool :=
  match nextSiblings with
  | XNode.elem tag _ _ :: _ => tag = "td".data || tag = "th".data
  | _ => false

/-- Model of `Table2Latex.process_cell` on a `td`/`th` element given the list of its
following siblings (minidom's `nextSibling` chain) and the accumulator
state.  `none` models the `ValueError` of `int()` on a malformed `colspan`.
Returns the emitted buffer and the updated state (`numcols += colspan`). -/
def process_cell (element : XNode) (siblings : List XNode) (st : TState) :
    Option (List Char × TState) :=
  let subcontent := Table2Latex_get_text element
  let subcontent :=
    if element.tagName = "th".data then "\\textbf\x7b".data ++ subcontent ++ "\x7d".data
    else subcontent
  if hasAttribute element ("colspan".data) then
    match pyInt (getAttribute element ("colspan".data)) with
    | none => none
    | some colspan =>
      let buffer := " \\multicolumn\x7b".data ++ (toString colspan).data ++ "\x7d\x7b|c|\x7d\x7b".data
        ++ subcontent ++ "\x7d".data
      let buffer := buffer ++ (if notLast siblings then " &".data else [])
      some (buffer, { st with numcols := st.numcols + colspan })
  else
    let buffer := " ".data ++ subcontent
    let buffer := buffer ++ (if notLast siblings then " &".data else [])
    some (buffer, { st with numcols := st.numcols + 1 })

/-- The buffer of `process_cell` without the trailing separator, plus the
colspan contribution: used to state the last-cell rule. -/
def cell_core (element : XNode) : Option (List Char × Int) :=
  let subcontent := Table2Latex_get_text element
  let subcontent :=
    if element.tagName = "th".data then "\\textbf\x7b".data ++ subcontent ++ "\x7d".data
    else subcontent
  if hasAttribute element ("colspan".data) then
    match pyInt (getAttribute element ("colspan".data)) with
    | none => none
    | some colspan =>
      some (" \\multicolumn\x7b".data ++ (toString colspan).data ++ "\x7d\x7b|c|\x7d\x7b".data
        ++ subcontent ++ "\x7d".data, colspan)
  else
    some (" ".data ++ subcontent, 1)

mutual

/-- Model of `Table2Latex.tolatex` on a node, given its following siblings (for the
`nextSibling` access of `process_cell`) and the accumulator state.  The
children are processed before the tag dispatch, as in the source. -/
def Table2Latex_tolatex : XNode → List XNode → TState → Option (List Char × TState)
  | .text _, _, st => some ([], st)
  | .elem tag attrs children, siblings, st =>
    match Table2Latex_tolatexList children st with
    | none => none
    | some (subRaw, st1) =>
      let subcontent := pyStrip subRaw
      if tag = "thead".data then some (subcontent ++ "\n".data, st1)
      else if tag = "tr".data then
        some ("\n\\hline\n".data ++ subcontent ++ " \\\\".data,
          { numcols := 0, maxcols := max st1.numcols st1.maxcols })
      else if tag = "td".data || tag = "th".data then
        process_cell (.elem tag attrs children) siblings st1
      else some (subcontent, st1)

/-- The `for child in element.childNodes` accumulation of `tolatex`:
children whose emitted text strips to empty contribute nothing to the
buffer, but their state effects persist. -/
def Table2Latex_tolatexList : List XNode → TState → Option (List Char × TState)
  | [], st => some ([], st)
  | c :: rest, st =>
    match Table2Latex_tolatex c rest st with
    | none => none
    | some (t, st1) =>
      match Table2Latex_tolatexList rest st1 with
      | none => none
      | some (sub, st2) => some ((if pyStrip t = [] then [] else t) ++ sub, st2)

end

mutual

/-- minidom `getElementsByTagName`: the descendants (self excluded) with the
given tag, in document order. -/
def getElementsByTagName : XNode → List Char → List XNode
  | .text _, _ => []
  | .elem _ _ children, name => gebtnList children name

/-- Descendant search over a child list. -/
def gebtnList : List XNode → List Char → List XNode
  | [], _ => []
  | c :: rest, name =>
    (match c with
     | .elem t _ _ => if t = name then [c] else []
     | .text _ => []) ++ getElementsByTagName c name ++ gebtnList rest name

end

/-- Model of `Table2Latex.colformat`: `'|c' * maxcols + '|'` (Python repeats a string
zero times for a non-positive count). -/
def colformat (maxcols : Int) : List Char :=
  List.flatten (List.replicate maxcols.toNat ("|c".data)) ++ "|".data

/-- Model of `Table2Latex.convert` applied to an already-parsed table tree (the
`xml.dom.minidom.parseString` step is the identity on the tree level):
reset the accumulators, convert the root, extract the first `caption`
descendant's text, and fill the fixed table template. -/
def Table2Latex_convert (root : XNode) : Option (List Char) :=
  match Table2Latex_tolatex root [] ⟨0, 0⟩ with
  | none => none
  | some (core, st) =>
    let caption :=
      match getElementsByTagName root ("caption".data) with
      | [] => []
      | c :: _ => Table2Latex_get_text c
    some ("\n\\begin\x7btable\x7d\n\\begin\x7btabular\x7d\x7b".data ++ colformat st.maxcols
      ++ "\x7d\n".data ++ core ++ "\n\\hline\n\\end\x7btabular\x7d\n\\\\[5pt]\n\\caption\x7b".data
      ++ caption ++ "\x7d\n\\end\x7btable\x7d\n".data)

-- ========================= IMAGE CONVERTER ================================

/-- Characters allowed in an XML name (enough for the fragments at issue). -/
def isNameChar (c : Char) : Bool :=
  c.isAlphanum || c = '-' || c = '_' || c = ':'

/-- Attribute-list parsing of the XML fragment model: `name="value"` or
`name='value'` pairs separated by whitespace, stopping before `/` or `>`.
Fuel bounds the number of attributes. -/
def parseAttrs : Nat → List Char → Except (List Char) (List (List Char × List Char) × List Char)
  | 0, _ => .error ("no element found".data)
  | fuel+1, s =>
    let s1 := s.dropWhile isPySpace
    match s1 with
    | [] => .error ("no element found".data)
    | '/' :: rest => .ok ([], '/' :: rest)
    | '>' :: rest => .ok ([], '>' :: rest)
    | _ =>
      let aname := s1.takeWhile isNameChar
      let r1 := s1.dropWhile isNameChar
      if aname = [] then .error ("not well-formed".data)
      else
        match r1.dropWhile isPySpace with
        | '=' :: r3 =>
          (match r3.dropWhile isPySpace with
           | '"' :: r5 =>
             (let v := r5.takeWhile (fun c => c ≠ '"')
              match r5.dropWhile (fun c => c ≠ '"') with
              | '"' :: r6 =>
                match parseAttrs fuel r6 with
                | .ok (attrs, rest) => .ok ((aname, v) :: attrs, rest)
                | .error e => .error e
              | _ => .error ("unclosed token".data))
           | '\'' :: r5 =>
             (let v := r5.takeWhile (fun c => c ≠ '\'')
              match r5.dropWhile (fun c => c ≠ '\'') with
              | '\'' :: r6 =>
                match parseAttrs fuel r6 with
                | .ok (attrs, rest) => .ok ((aname, v) :: attrs, rest)
                | .error e => .error e
              | _ => .error ("unclosed token".data))
           | _ => .error ("not well-formed".data))
        | _ => .error ("not well-formed".data)

/-- Model of `xml.dom.minidom.parseString` for fragments consisting of a
single element with attributes and text content (the only shape the image
converter receives).  A start tag with no matching end tag is an XML
well-formedness error: expat reports `no element found` when the input ends
inside an open element — in particular `parseString('<img>')` raises. -/
def parseString (s : List Char) : Except (List Char) XNode :=
  match s.dropWhile isPySpace with
  | '<' :: rest =>
    let name := rest.takeWhile isNameChar
    let rest1 := rest.dropWhile isNameChar
    if name = [] then .error ("syntax error".data)
    else
      match parseAttrs (rest1.length + 1) rest1 with
      | .error e => .error e
      | .ok (attrs, rest2) =>
        match rest2 with
        | '/' :: '>' :: rest3 =>
          if rest3.dropWhile isPySpace = [] then .ok (.elem name attrs [])
          else .error ("junk after document element".data)
        | '>' :: rest3 =>
          (let content := rest3.takeWhile (fun c => c ≠ '<')
           match rest3.dropWhile (fun c => c ≠ '<') with
           | '<' :: '/' :: rest5 =>
             let cname := rest5.takeWhile isNameChar
             let rest6 := rest5.dropWhile isNameChar
             if cname = name then
               match rest6.dropWhile isPySpace with
               | '>' :: rest7 =>
                 if rest7.dropWhile isPySpace = [] then
                   .ok (.elem name attrs (if content = [] then [] else [.text content]))
                 else .error ("junk after document element".data)
               | _ => .error ("not well-formed".data)
             else .error ("mismatched tag".data)
           | _ => .error ("no element found".data))
        | _ => .error ("not well-formed".data)
  | _ => .error ("syntax error".data)

/-- Model of `Img2Latex.convert`: parse the fragment, read the `src` and `alt`
attributes (empty string when absent), and fill the fixed figure template.
The `.error` case models the `ExpatError` escaping from `parseString`. -/
def Img2Latex_convert (instr : List Char) : Except (List Char) (List Char) :=
  match parseString instr with
  | .error e => .error e
  | .ok img =>
    let src := getAttribute img ("src".data)
    let alt := getAttribute img ("alt".data)
    .ok ("\n\\begin\x7bfigure\x7d\n\\centering\n\\includegraphics[width=\\textwidth]\x7b".data
      ++ src ++ "\x7d\n\\caption\x7b".data ++ alt ++ "\x7d\n\\end\x7bfigure\x7d\n".data)

-- ========================= TREE-TO-LATEX WALKER ===========================

/-- An element-tree node as handed to `LaTeXTreeProcessor`: a tag, a text
payload, and an ordered child list. -/
inductive MDNode where
  | mk (tag : List Char) (text : List Char) (children : List MDNode)
deriving Repr

/-- The tag of a tree node. -/
def MDNode.tag : MDNode → List Char
  | .mk t _ _ => t

/-- The text payload of a tree node. -/
def MDNode.text : MDNode → List Char
  | .mk _ x _ => x

/-- The children of a tree node. -/
def MDNode.children : MDNode → List MDNode
  | .mk _ _ c => c

/-- The block appended to an `h1` title by the walker (64 dashes per line). -/
def h1Block : List Char :=
  ("\n% ----------------------------------------------------------------\n\\maketitle\n% ----------------------------------------------------------------\n".data)

mutual

/-- The per-element body of the walker's loop: record the children's tags,
recurse into the element when it has children (the recursion `tolatex(elem)`
rewrites the children and leaves the element's own fields alone), then apply
the per-tag text rewrite rules of the source in order. -/
def LaTeXTreeProcessor_step : MDNode → MDNode
  | .mk t x children =>
    let tags := children.map MDNode.tag
    let children1 :=
      if children.length > 0 then LaTeXTreeProcessor_walkList children else children
    let txt := x
    let txt :=
      if t = "h1".data then ("\n\\title\x7b".data ++ txt ++ "\x7d\n".data) ++ h1Block
      else txt
    let txt := if t = "h2".data then "\n\\section\x7b".data ++ txt ++ "\x7d\n".data else txt
    let txt := if t = "h3".data then "\n\\subsection\x7b".data ++ txt ++ "\x7d\n".data else txt
    let txt :=
      if t = "h4".data then "\n\\subsubsection\x7b".data ++ txt ++ "\x7d\n".data else txt
    let txt := if t = "li".data then "  \\item ".data ++ txt else txt
    let txt :=
      if t = "p".data ∧ ¬ tags.contains ("sup".data) ∧ ¬ tags.contains ("em".data) then
        txt ++ "\n".data
      else txt
    let txt := if t = "em".data then "\\emph\x7b".data ++ txt ++ "\x7d".data else txt
    .mk t txt children1

/-- The `for elem in list(ournode)` loop. -/
def LaTeXTreeProcessor_walkList : List MDNode → List MDNode
  | [] => []
  | e :: rest => LaTeXTreeProcessor_step e :: LaTeXTreeProcessor_walkList rest

end

/-- Model of `LaTeXTreeProcessor.tolatex`: walk the children of the given node,
rewriting each element's text in place; the node itself is untouched. -/
def LaTeXTreeProcessor_tolatex : MDNode → MDNode
  | .mk t x children => .mk t x (LaTeXTreeProcessor_walkList children)

/-- A table-cell element: an element node whose tag is `td` or `th`. -/
def isCellElem (c : XNode) : Prop :=
  ∃ t attrs ch, c = XNode.elem t attrs ch ∧ (t = "td".data ∨ t = "th".data)

/-- The table family of the column-inference test: two rows, the first with
three plain cells, the second with a `colspan=2` cell and a plain cell; the
cell texts are arbitrary. -/
def exampleTable (s1 s2 s3 s4 s5 : List Char) : XNode :=
  .elem ("table".data) []
    [ .elem ("tr".data) []
        [.elem ("td".data) [] [.text s1],
         .elem ("td".data) [] [.text s2],
         .elem ("td".data) [] [.text s3]],
      .elem ("tr".data) []
        [.elem ("td".data) [("colspan".data, "2".data)] [.text s4],
         .elem ("td".data) [] [.text s5]] ]

-- ========================= THEOREMS: TABLE POSTPROCESSOR (C1) =============

theorem tablematch_span_contains {s : List Char} {p : Nat × Nat}
    (h : tablematch_span s = some p) : containsTableFragment s = true := by
  unfold tablematch_span at h
  rcases hfi : firstIndexOf ("<table".data) s with _ | i
  · simp only [hfi] at h; exact absurd h (by simp)
  simp only [hfi] at h
  rcases hla : lastIndexFrom ("</table>".data) s (i + 6) with _ | j
  · simp only [hla] at h; exact absurd h (by simp)
  have hi1 : occursAt ("<table".data) s i = true := List.find?_some hfi
  have hi2 : i ∈ List.range (s.length + 1) := List.mem_of_find?_eq_some hfi
  have hj := List.getLast?_eq_some_iff.mp hla
  obtain ⟨ys, hys⟩ := hj
  have hjmem : j ∈ (List.range (s.length + 1)).filter
      (fun j => decide (i + 6 ≤ j) && occursAt ("</table>".data) s j) := by
    rw [hys]; exact List.mem_append.mpr (Or.inr (by simp))
  have hj2 := List.mem_filter.mp hjmem
  unfold containsTableFragment
  rw [List.any_eq_true]
  refine ⟨i, hi2, ?_⟩
  rw [hi1, Bool.true_and, List.any_eq_true]
  exact ⟨j, hj2.1, hj2.2⟩

theorem tablematch_span_of_not_contains {s : List Char}
    (h : containsTableFragment s = false) : tablematch_span s = none := by
  rcases hs : tablematch_span s with _ | p
  · rfl
  · exact absurd (tablematch_span_contains hs) (by rw [h]; simp)

/-- C1: for every input string containing no substring matched by the table
pattern `<table.*</table>`, `TableTextPostProcessor.run` raises an
`IndexError` (popping the empty list of tables) instead of returning the
text: the loop always enters its first iteration because `re.split` yields
the one-element list `[instr]`, and then pops from the empty `findall`
result.  This holds for any table converter. -/
theorem tableRun_raises_on_tableless (convert : List Char → List Char) (s : List Char)
    (h : containsTableFragment s = false) :
    TableTextPostProcessor_run convert s = .error ("IndexError: pop from empty list".data) := by
  have hspan := tablematch_span_of_not_contains h
  have hfind : tablematch_findall s = [] := by
    unfold tablematch_findall tablematch_findallGo
    rw [hspan]
  have hsplit : tablematch_split s = [s] := by
    unfold tablematch_split tablematch_splitGo
    rw [hspan]
  unfold TableTextPostProcessor_run
  rw [hfind, hsplit]
  simp only [List.length_singleton]
  unfold tableRunLoopGo
  simp [List.getLast?_singleton, List.getLast?_nil]

/-- Witness for C1 at the concrete table-less input `hello`. -/
theorem tableRun_raises_on_tableless_witness :
    containsTableFragment ("hello".data) = false ∧
      TableTextPostProcessor_run id ("hello".data) =
        .error ("IndexError: pop from empty list".data) :=
  ⟨by decide, tableRun_raises_on_tableless id ("hello".data) (by decide)⟩

-- ========================= THEOREMS: ENTITY ESCAPER (C3) ==================

theorem bsOkGo_cons (A : List Char) (b : Bool) (c : Char) (rest : List Char) :
    bsOkGo A b (c :: rest) =
      ((!b || A.contains c) && bsOkGo A (decide (c = '\\')) rest) := rfl

theorem pyReplaceGo_single (c : Char) (rep : List Char) :
    ∀ (fuel : Nat) (s : List Char), s.length ≤ fuel →
      pyReplaceGo [c] rep fuel s = escRepOne c rep s := by
  intro fuel
  induction fuel with
  | zero =>
    intro s hs
    rw [List.length_eq_zero.mp (Nat.le_zero.mp hs)]
    rfl
  | succ f ih =>
    intro s hs
    cases s with
    | nil => rfl
    | cons x rest =>
      have hrest : rest.length ≤ f := by
        simp only [List.length_cons] at hs
        omega
      rw [pyReplaceGo, escRepOne]
      by_cases hx : x = c
      · rw [if_pos ⟨by simp, by simp [List.isPrefixOf, hx]⟩, if_pos hx]
        have hd : List.drop ([c].length - 1) rest = rest := by simp
        rw [hd, ih rest hrest]
      · rw [if_neg ?_, if_neg hx]
        · rw [ih rest hrest]
          rfl
        · rintro ⟨-, hpre⟩
          simp only [List.isPrefixOf, List.isPrefixOf_nil_left, Bool.and_true,
            beq_iff_eq] at hpre
          exact hx hpre.symm

theorem pyReplace_single (s : List Char) (c : Char) (rep : List Char) :
    pyReplace s [c] rep = escRepOne c rep s :=
  pyReplaceGo_single c rep s.length s (Nat.le_refl _)

theorem pyReplaceGo_id_of_not_contains (pat rep : List Char) :
    ∀ (fuel : Nat) (s : List Char), containsSub pat s = false →
      pyReplaceGo pat rep fuel s = s := by
  intro fuel
  induction fuel with
  | zero => intro s _; cases s <;> rfl
  | succ f ih =>
    intro s hs
    cases s with
    | nil => rfl
    | cons x rest =>
      rw [containsSub, Bool.or_eq_false_iff] at hs
      rw [pyReplaceGo, if_neg (fun hc => by rw [hc.2] at hs; exact absurd hs.1 (by simp)),
        ih rest hs.2]

theorem pyReplace_id_of_not_contains (s pat rep : List Char)
    (h : containsSub pat s = false) : pyReplace s pat rep = s :=
  pyReplaceGo_id_of_not_contains pat rep s.length s h

theorem pyReplaceGo_not_mem (pat rep : List Char) (a : Char) (hrep : a ∉ rep) :
    ∀ (fuel : Nat) (s : List Char), a ∉ s → a ∉ pyReplaceGo pat rep fuel s := by
  intro fuel
  induction fuel with
  | zero => intro s hs; cases s with | nil => simp [pyReplaceGo] | cons x r => exact hs
  | succ f ih =>
    intro s hs
    cases s with
    | nil => simp [pyReplaceGo]
    | cons x rest =>
      rw [pyReplaceGo]
      split
      · intro hmem
        rcases List.mem_append.mp hmem with h | h
        · exact hrep h
        · exact ih _ (fun hd => hs (List.mem_cons_of_mem x (List.drop_subset _ _ hd))) h
      · intro hmem
        rcases List.mem_cons.mp hmem with h | h
        · exact hs (h ▸ List.mem_cons_self x rest)
        · exact ih rest (fun hd => hs (List.mem_cons_of_mem x hd)) h

theorem pyReplace_not_mem (s pat rep : List Char) (a : Char) (hrep : a ∉ rep)
    (hs : a ∉ s) : a ∉ pyReplace s pat rep :=
  pyReplaceGo_not_mem pat rep a hrep s.length s hs

theorem remove_html_entities_tags_not_mem (a : Char) :
    ∀ (tags : List (List Char)) (o : List Char), a ∉ o →
      a ∉ tags.foldl
        (fun o tag =>
          pyReplace (pyReplace o ("<".data ++ tag ++ ">".data) [])
            ("</".data ++ tag ++ ">".data) []) o := by
  intro tags
  induction tags with
  | nil => intro o ho; exact ho
  | cons t rest ih =>
    intro o ho
    rw [List.foldl_cons]
    exact ih _ (pyReplace_not_mem _ _ _ a (by simp) (pyReplace_not_mem _ _ _ a (by simp) ho))

theorem remove_html_entities_not_bs (s : List Char) (h1 : '\\' ∉ s)
    (h2 : containsSub ("&amp;".data) s = false) : '\\' ∉ remove_html_entities s := by
  unfold remove_html_entities
  rw [pyReplace_id_of_not_contains _ _ _ h2]
  refine remove_html_entities_tags_not_mem '\\' _ _ ?_
  refine pyReplace_not_mem _ _ _ '\\' (by decide) ?_
  refine pyReplace_not_mem _ _ _ '\\' (by decide) ?_
  exact pyReplace_not_mem _ _ _ '\\' (by decide) h1

theorem bsOkGo_of_not_mem (A : List Char) :
    ∀ s : List Char, '\\' ∉ s → bsOkGo A false s = true := by
  intro s
  induction s with
  | nil => intro _; rfl
  | cons c rest ih =>
    intro h
    simp only [List.mem_cons, not_or] at h
    rw [bsOkGo_cons]
    have hc : decide (c = '\\') = false := by
      simp only [decide_eq_false_iff_not]
      exact fun hc => h.1 hc.symm
    rw [hc, ih h.2]
    simp

theorem escRepOne_bsOk (A : List Char) (c : Char) (hc : A.contains c = false)
    (hbs : c ≠ '\\') :
    ∀ (s : List Char) (b : Bool), bsOkGo A b s = true →
      bsOkGo (c :: A) b (escRepOne c ['\\', c] s) = true := by
  intro s
  induction s with
  | nil => intro b h; exact h
  | cons x rest ih =>
    intro b h
    rw [bsOkGo_cons, Bool.and_eq_true] at h
    obtain ⟨h1, h2⟩ := h
    by_cases hx : x = c
    · subst hx
      have hb : b = false := by
        rw [Bool.or_eq_true] at h1
        rcases h1 with hb | hb
        · simpa using hb
        · rw [hb] at hc; exact absurd hc (by simp)
      subst hb
      rw [escRepOne, if_pos rfl]
      show bsOkGo (x :: A) false ('\\' :: x :: escRepOne x ['\\', x] rest) = true
      have hxbs : decide (x = '\\') = false := by simpa using hbs
      rw [bsOkGo_cons, bsOkGo_cons, hxbs]
      rw [show decide (('\\' : Char) = '\\') = true from by decide]
      simp only [Bool.not_false, Bool.true_or, Bool.true_and, Bool.not_true, Bool.false_or,
        Bool.and_eq_true, List.contains_cons]
      refine ⟨by simp, ?_⟩
      rw [hxbs] at h2
      exact ih false h2
    · rw [escRepOne, if_neg hx]
      show bsOkGo (c :: A) b (x :: escRepOne c ['\\', c] rest) = true
      rw [bsOkGo_cons, Bool.and_eq_true]
      constructor
      · rw [Bool.or_eq_true] at h1 ⊢
        rcases h1 with hb | hb
        · exact Or.inl hb
        · refine Or.inr ?_
          rw [List.contains_cons, hb]
          simp
      · exact ih _ h2

theorem ssqGo_bsOk :
    ∀ s : List Char, ∀ b : Bool, bsOkGo escSet b s = true →
      bsOkGo escSet b (ssqGo s) = true := by
  intro s
  induction s using ssqGo.induct with
  | case1 => exact fun _ h => h
  | case2 c => exact fun _ h => h
  | case3 c q rest2 hcond ih =>
    intro b h
    rw [ssqGo, if_pos hcond]
    have hq : q = '\'' := by
      simp only [Bool.and_eq_true, decide_eq_true_eq] at hcond
      exact hcond.2
    have hcne : decide (c = '\\') = false := by
      simp only [Bool.and_eq_true, Bool.or_eq_true, decide_eq_true_eq] at hcond
      rcases hcond.1 with hc | hc
      · simp only [decide_eq_false_iff_not]
        intro he; subst he; exact absurd hc (by decide)
      · subst hc; decide
    subst hq
    rw [bsOkGo_cons, bsOkGo_cons, Bool.and_eq_true, Bool.and_eq_true] at h
    obtain ⟨h1, _, h3⟩ := h
    rw [bsOkGo_cons, bsOkGo_cons, Bool.and_eq_true, Bool.and_eq_true]
    refine ⟨h1, by rw [hcne]; decide, ?_⟩
    rw [show decide (btk = '\\') = false from by decide]
    rw [show decide (('\'' : Char) = '\\') = false from by decide] at h3
    exact ih false h3
  | case4 c q rest2 hcond ih =>
    intro b h
    rw [ssqGo, if_neg hcond]
    rw [bsOkGo_cons, Bool.and_eq_true] at h
    rw [bsOkGo_cons, Bool.and_eq_true]
    exact ⟨h.1, ih _ h.2⟩

theorem sdqGo_bsOk :
    ∀ s : List Char, ∀ b : Bool, bsOkGo escSet b s = true →
      bsOkGo escSet b (sdqGo s) = true := by
  intro s
  induction s using sdqGo.induct with
  | case1 => exact fun _ h => h
  | case2 c => exact fun _ h => h
  | case3 c q rest2 hcond ih =>
    intro b h
    rw [sdqGo, if_pos hcond]
    have hq : q = '"' := by
      simp only [Bool.and_eq_true, decide_eq_true_eq] at hcond
      exact hcond.2
    have hcne : decide (c = '\\') = false := by
      simp only [Bool.and_eq_true, Bool.or_eq_true, decide_eq_true_eq] at hcond
      rcases hcond.1 with (hc | hc) | hc
      · simp only [decide_eq_false_iff_not]
        intro he; subst he; exact absurd hc (by decide)
      · subst hc; decide
      · subst hc; decide
    subst hq
    rw [bsOkGo_cons, bsOkGo_cons, Bool.and_eq_true, Bool.and_eq_true] at h
    obtain ⟨h1, _, h3⟩ := h
    rw [bsOkGo_cons, bsOkGo_cons, bsOkGo_cons, Bool.and_eq_true, Bool.and_eq_true,
      Bool.and_eq_true]
    refine ⟨h1, by rw [hcne]; decide, by decide, ?_⟩
    rw [show decide (btk = '\\') = false from by decide]
    rw [show decide (('"' : Char) = '\\') = false from by decide] at h3
    exact ih false h3
  | case4 c q rest2 hcond ih =>
    intro b h
    rw [sdqGo, if_neg hcond]
    rw [bsOkGo_cons, Bool.and_eq_true] at h
    rw [bsOkGo_cons, Bool.and_eq_true]
    exact ⟨h.1, ih _ h.2⟩

theorem edqGo_bsOk :
    ∀ s : List Char, ∀ b : Bool, bsOkGo escSet b s = true →
      bsOkGo escSet b (edqGo s) = true := by
  intro s
  induction s using edqGo.induct with
  | case1 => exact fun _ h => h
  | case2 =>
    intro b h
    rw [bsOkGo_cons, Bool.and_eq_true] at h
    have hb : b = false := by
      have h1 := h.1
      rw [show escSet.contains '"' = false from by decide, Bool.or_false] at h1
      simpa using h1
    subst hb
    decide
  | case3 c hc =>
    intro b h
    rw [edqGo, if_neg hc]
    exact h
  | case4 q rest2 hcond ih =>
    intro b h
    rw [edqGo, if_pos rfl, if_pos hcond]
    rw [bsOkGo_cons, bsOkGo_cons, Bool.and_eq_true, Bool.and_eq_true] at h
    obtain ⟨h1, _, h3⟩ := h
    have hb : b = false := by
      rw [show escSet.contains '"' = false from by decide, Bool.or_false] at h1
      simpa using h1
    subst hb
    have hqbs : decide (q = '\\') = false := by
      simp only [Bool.or_eq_true, decide_eq_true_eq] at hcond
      rcases hcond with (hq | hq) | hq
      · subst hq; decide
      · subst hq; decide
      · simp only [decide_eq_false_iff_not]
        intro he; subst he; exact absurd hq (by decide)
    rw [bsOkGo_cons, bsOkGo_cons, bsOkGo_cons, Bool.and_eq_true, Bool.and_eq_true,
      Bool.and_eq_true]
    refine ⟨by decide, by decide, ?_, ih _ h3⟩
    rw [show decide (('\'' : Char) = '\\') = false from by decide]
    simp
  | case5 q rest2 hcond ih =>
    intro b h
    rw [edqGo, if_pos rfl, if_neg hcond]
    rw [bsOkGo_cons, Bool.and_eq_true] at h
    rw [bsOkGo_cons, Bool.and_eq_true]
    exact ⟨h.1, ih _ h.2⟩
  | case6 c q rest2 hc ih =>
    intro b h
    rw [edqGo, if_neg hc]
    rw [bsOkGo_cons, Bool.and_eq_true] at h
    rw [bsOkGo_cons, Bool.and_eq_true]
    exact ⟨h.1, ih _ h.2⟩

theorem bsOkGo_no_double_bs (A : List Char) (hA : A.contains '\\' = false) :
    ∀ (s : List Char) (b : Bool), bsOkGo A b s = true →
      containsSub ['\\', '\\'] s = false := by
  intro s
  induction s with
  | nil => exact fun _ _ => rfl
  | cons c rest ih =>
    intro b h
    rw [bsOkGo_cons, Bool.and_eq_true] at h
    obtain ⟨h1, h2⟩ := h
    rw [containsSub, Bool.or_eq_false_iff]
    refine ⟨?_, ih _ h2⟩
    by_cases hc : c = '\\'
    · subst hc
      cases rest with
      | nil => decide
      | cons d rest2 =>
        rw [bsOkGo_cons, Bool.and_eq_true] at h2
        obtain ⟨h2a, _⟩ := h2
        have hd : A.contains d = true := by
          rw [show decide (('\\' : Char) = '\\') = true from by decide] at h2a
          simpa using h2a
        have hdne : ¬ (('\\' : Char) == d) = true := by
          simp only [beq_iff_eq]
          intro he
          rw [← he, hA] at hd
          exact absurd hd (by simp)
        simp only [List.isPrefixOf, List.isPrefixOf_nil_left, Bool.and_true,
          beq_self_eq_true, Bool.true_and]
        exact Bool.eq_false_iff.mpr hdne
    · simp only [List.isPrefixOf]
      have : ¬ (('\\' : Char) == c) = true := by
        simp only [beq_iff_eq]
        exact fun he => hc he.symm
      rw [Bool.eq_false_iff.mpr this]
      simp

theorem start_single_quote_sub_bsOk (s : List Char) (h : bsOkGo escSet false s = true) :
    bsOkGo escSet false (start_single_quote_sub s) = true := by
  cases s with
  | nil => exact h
  | cons c rest =>
    rw [start_single_quote_sub]
    by_cases hc : c = '\''
    · rw [if_pos hc]
      subst hc
      rw [bsOkGo_cons, Bool.and_eq_true] at h
      rw [bsOkGo_cons, Bool.and_eq_true]
      refine ⟨by simp, ?_⟩
      rw [show decide (btk = '\\') = false from by decide]
      have h2 := h.2
      rw [show decide (('\'' : Char) = '\\') = false from by decide] at h2
      exact ssqGo_bsOk _ false h2
    · rw [if_neg hc]
      exact ssqGo_bsOk _ false h

theorem start_double_quote_sub_bsOk (s : List Char) (h : bsOkGo escSet false s = true) :
    bsOkGo escSet false (start_double_quote_sub s) = true := by
  cases s with
  | nil => exact h
  | cons c rest =>
    rw [start_double_quote_sub]
    by_cases hc : c = '"'
    · rw [if_pos hc]
      subst hc
      rw [bsOkGo_cons, Bool.and_eq_true] at h
      rw [bsOkGo_cons, bsOkGo_cons, Bool.and_eq_true, Bool.and_eq_true]
      refine ⟨by simp, by rw [show decide (btk = '\\') = false from by decide]; simp, ?_⟩
      rw [show decide (btk = '\\') = false from by decide]
      have h2 := h.2
      rw [show decide (('"' : Char) = '\\') = false from by decide] at h2
      exact sdqGo_bsOk _ false h2
    · rw [if_neg hc]
      exact sdqGo_bsOk _ false h

theorem escape_no_double_backslash (s : List Char) (h1 : '\\' ∉ s)
    (h2 : containsSub ("&amp;".data) s = false) :
    containsSub ("\\\\".data) (escape_latex_entities s) = false := by
  have hr0 : '\\' ∉ remove_html_entities s := remove_html_entities_not_bs s h1 h2
  show containsSub ['\\', '\\']
      (edqGo (start_double_quote_sub (start_single_quote_sub
        (pyReplace (pyReplace (pyReplace (remove_html_entities s)
          ['%'] ['\\', '%']) ['&'] ['\\', '&']) ['#'] ['\\', '#'])))) = false
  rw [pyReplace_single, pyReplace_single, pyReplace_single]
  have b0 : bsOkGo [] false (remove_html_entities s) = true :=
    bsOkGo_of_not_mem [] _ hr0
  have b1 := escRepOne_bsOk [] '%' (by decide) (by decide) _ false b0
  have b2 := escRepOne_bsOk ['%'] '&' (by decide) (by decide) _ false b1
  have b3 := escRepOne_bsOk ['&', '%'] '#' (by decide) (by decide) _ false b2
  have hesc : ('#' :: ('&' :: ('%' : Char) :: [])) = escSet := rfl
  rw [hesc] at b3
  have q1 := start_single_quote_sub_bsOk _ b3
  have q2 := start_double_quote_sub_bsOk _ q1
  have q3 := edqGo_bsOk _ false q2
  exact bsOkGo_no_double_bs escSet (by decide) _ false q3
-- ========================= THEOREMS: TABLE CONVERTER (C4, C7) =============

theorem process_cell_core (e : XNode) (sibs : List XNode) (st : TState) :
    process_cell e sibs st =
      (cell_core e).map (fun p =>
        (p.1 ++ (if notLast sibs then " &".data else []),
          { st with numcols := st.numcols + p.2 })) := by
  unfold process_cell cell_core
  by_cases hattr : hasAttribute e ("colspan".data) = true
  · simp only [hattr, if_true]
    cases hint : pyInt (getAttribute e ("colspan".data)) with
    | none => simp
    | some n => simp
  · simp only [Bool.not_eq_true] at hattr
    simp only [hattr, Bool.false_eq_true, if_false]
    simp

theorem notLast_drop (cells : List XNode) (h : ∀ c ∈ cells, isCellElem c) (i : Nat) :
    notLast (cells.drop (i + 1)) = decide (i + 1 < cells.length) := by
  by_cases hlt : i + 1 < cells.length
  · rw [List.drop_eq_getElem_cons hlt]
    obtain ⟨t, attrs, ch, heq, htag⟩ := h _ (List.getElem_mem hlt)
    rw [heq]
    show (t = "td".data || t = "th".data) = decide (i + 1 < cells.length)
    rcases htag with ht | ht <;> simp [ht, hlt]
  · rw [List.drop_eq_nil_of_le (Nat.le_of_not_lt hlt)]
    show false = decide (i + 1 < cells.length)
    simp [hlt]

/-- C4 (amended): `process_cell` appends the trailing ` &` separator exactly
when the immediate next sibling is a `td`/`th` element; hence in a row whose
cells are directly adjacent siblings, for every index `i`, the emitted cell
buffer carries the trailing ` &` iff the cell is not the last one.  (The
sibling test does NOT skip intervening non-element nodes — see the
counterexample.) -/
theorem cells_trailing_sep (cells : List XNode) (h : ∀ c ∈ cells, isCellElem c)
    (i : Nat) (hi : i < cells.length) (st : TState) :
    process_cell (cells.get ⟨i, hi⟩) (cells.drop (i + 1)) st =
      (cell_core (cells.get ⟨i, hi⟩)).map (fun p =>
        (p.1 ++ (if i + 1 < cells.length then " &".data else []),
          { st with numcols := st.numcols + p.2 })) := by
  rw [process_cell_core, notLast_drop cells h i]
  by_cases hlt : i + 1 < cells.length <;> simp [hlt]

/-- Counterexample for C4 as stated: with a whitespace text node between two
`td` cells, the first cell emits NO trailing ` &` (its buffer is exactly
` a`), even though a later `td` sibling exists: the `notLast` test examines
only the immediate next sibling and does not skip non-element nodes. -/
theorem cells_trailing_sep_counterexample :
    process_cell (XNode.elem ("td".data) [] [XNode.text ("a".data)])
        [XNode.text (" ".data), XNode.elem ("td".data) [] [XNode.text ("b".data)]] ⟨0, 0⟩ =
      some (" a".data, ⟨1, 0⟩) ∧
      containsSub (" &".data) (" a".data) = false := by
  exact ⟨by decide, by decide⟩

/-- Witness for C4 (amended) on a concrete two-cell row: the first cell gets
the separator, the last does not. -/
theorem cells_trailing_sep_witness :
    (∀ c ∈ [XNode.elem ("td".data) [] [XNode.text ("a".data)],
            XNode.elem ("td".data) [] [XNode.text ("b".data)]], isCellElem c) ∧
    process_cell ([XNode.elem ("td".data) [] [XNode.text ("a".data)],
        XNode.elem ("td".data) [] [XNode.text ("b".data)]].get ⟨0, by decide⟩)
      ([XNode.elem ("td".data) [] [XNode.text ("a".data)],
        XNode.elem ("td".data) [] [XNode.text ("b".data)]].drop (0 + 1)) ⟨0, 0⟩ =
      (cell_core ([XNode.elem ("td".data) [] [XNode.text ("a".data)],
          XNode.elem ("td".data) [] [XNode.text ("b".data)]].get ⟨0, by decide⟩)).map
        (fun p => (p.1 ++ (if 0 + 1 <
            [XNode.elem ("td".data) [] [XNode.text ("a".data)],
             XNode.elem ("td".data) [] [XNode.text ("b".data)]].length
          then " &".data else []),
          { numcols := (0 : Int) + p.2, maxcols := (0 : Int) })) := by
  have hcells : ∀ c ∈ [XNode.elem ("td".data) [] [XNode.text ("a".data)],
      XNode.elem ("td".data) [] [XNode.text ("b".data)]], isCellElem c := by
    intro c hc
    rcases List.mem_cons.mp hc with h | h
    · exact ⟨_, _, _, h, Or.inl rfl⟩
    · rcases List.mem_cons.mp h with h | h
      · exact ⟨_, _, _, h, Or.inl rfl⟩
      · exact absurd h (List.not_mem_nil c)
  exact ⟨hcells, cells_trailing_sep _ hcells 0 (by decide) ⟨0, 0⟩⟩

/-- C7: for the two-row table with three plain cells in row 1 and a
`colspan=2` cell plus a plain cell in row 2 (arbitrary cell texts), the
converter's accumulator ends with `maxcols = 3` (and `numcols` reset to 0),
and the emitted table contains the column specification `|c|c|c|` in its
`tabular` environment. -/
theorem table_colspan_inference (s1 s2 s3 s4 s5 : List Char) :
    (Table2Latex_tolatex (exampleTable s1 s2 s3 s4 s5) [] ⟨0, 0⟩).map (fun p => p.2) =
        some ⟨0, 3⟩ ∧
      (Table2Latex_convert (exampleTable s1 s2 s3 s4 s5)).map
        (containsSub ("\\begin\x7btabular\x7d\x7b|c|c|c|\x7d".data)) = some true :=
  ⟨rfl, rfl⟩

-- ========================= THEOREMS: MATH POSTPROCESSOR (C5, C6, C8, C9) ==

theorem pat2Sub_noDollar : ∀ l : List Char, '$' ∉ l → pat2Sub l = l := by
  intro l
  induction l using pat2Sub.induct with
  | case1 => intro _; rfl
  | case2 a => intro _; rfl
  | case3 a b => intro _; rfl
  | case4 a b c rest hcond ih =>
    intro h
    exact absurd (hcond.1 ▸ List.mem_cons_of_mem a (List.mem_cons_self b _)) h
  | case5 a b c rest hcond ih =>
    intro h
    rw [pat2Sub, if_neg hcond, ih (fun hm => h (List.mem_cons_of_mem a hm))]

/-- C5 (amended): the currency pass escapes a single flanked dollar when its
left flank has not been consumed by an earlier overlapping match; in
particular, when the input contains exactly one `$` and it has a preceding
and a following non-dollar character, the pass output is `A\$B`.  (Two
flanked dollars two characters apart are NOT both escaped — see the
counterexample.) -/
theorem pat2Sub_single_dollar :
    ∀ A B : List Char, A ≠ [] → B ≠ [] → '$' ∉ A → '$' ∉ B →
      pat2Sub (A ++ '$' :: B) = A ++ '\\' :: '$' :: B := by
  intro A
  induction A with
  | nil => intro B h; exact absurd rfl h
  | cons a A2 ih =>
    intro B _ hB hA hBd
    have ha : a ≠ '$' := fun he => hA (he ▸ List.mem_cons_self a A2)
    cases A2 with
    | nil =>
      cases B with
      | nil => exact absurd rfl hB
      | cons b B2 =>
        have hb : b ≠ '$' := fun he => hBd (he ▸ List.mem_cons_self b B2)
        show pat2Sub (a :: '$' :: b :: B2) = a :: '\\' :: '$' :: b :: B2
        rw [pat2Sub, if_pos ⟨rfl, ha, hb⟩,
          pat2Sub_noDollar B2 (fun hm => hBd (List.mem_cons_of_mem b hm))]
    | cons a2 A3 =>
      have ha2 : a2 ≠ '$' := fun he =>
        hA (he ▸ List.mem_cons_of_mem a (List.mem_cons_self a2 A3))
      show pat2Sub (a :: a2 :: (A3 ++ '$' :: B)) = a :: ((a2 :: A3) ++ '\\' :: '$' :: B)
      cases hA3 : A3 ++ '$' :: B with
      | nil => exact absurd hA3 (by simp)
      | cons c X =>
        rw [pat2Sub, if_neg (fun hc => ha2 hc.1), ← hA3]
        have hih := ih B (List.cons_ne_nil a2 A3) hB
          (fun hm => hA (List.mem_cons_of_mem a hm)) hBd
        rw [show a2 :: (A3 ++ '$' :: B) = (a2 :: A3) ++ '$' :: B from rfl, hih]

/-- Witness for C5 (amended) at `A = "a"`, `B = "b"`. -/
theorem pat2Sub_single_dollar_witness :
    (("a".data : List Char) ≠ [] ∧ ("b".data : List Char) ≠ [] ∧
      '$' ∉ ("a".data : List Char) ∧ '$' ∉ ("b".data : List Char)) ∧
    pat2Sub (("a".data : List Char) ++ '$' :: ("b".data : List Char)) =
      ("a".data : List Char) ++ '\\' :: '$' :: ("b".data : List Char) :=
  ⟨⟨by decide, by decide, by decide, by decide⟩,
    pat2Sub_single_dollar ("a".data) ("b".data) (by decide) (by decide) (by decide)
      (by decide)⟩

/-- Counterexample for C5 as stated: in `a$b$c` both dollars are flanked by
non-dollar characters, but only the first is escaped — the substitution
consumed `b` as part of the first match, so the full run yields `a\$b$c`,
which does not contain `b\$c`. -/
theorem currency_escape_counterexample :
    MathTextPostProcessor_run ("a$b$c".data) = ("a\\$b$c".data) ∧
      containsSub ("b\\$c".data) (MathTextPostProcessor_run ("a$b$c".data)) = false := by
  exact ⟨by decide, by decide⟩

/-- C6 (amended): the percent pass rewrites an occurrence of `%` to `\%`
iff the next character is not ASCII whitespace (the lookahead `\s-*` matches
exactly when the next character is whitespace, since `-*` may be empty);
the character before the `%` is never consulted, so a preceding backslash
does not prevent the rewrite. -/
theorem percentPass_flank (pre post : List Char) (hpre : '%' ∉ pre) :
    percentPass (pre ++ '%' :: post) =
      pre ++ (if matchSpaceDashStar post then '%' :: percentPass post
              else '\\' :: '%' :: percentPass post) := by
  induction pre with
  | nil =>
    show percentPass ('%' :: post) = _
    rw [percentPass, if_pos rfl]
    simp
  | cons c pre2 ih =>
    have hc : c ≠ '%' := fun he => hpre (he ▸ List.mem_cons_self c pre2)
    show percentPass (c :: (pre2 ++ '%' :: post)) = _
    rw [percentPass, if_neg hc, ih (fun hm => hpre (List.mem_cons_of_mem c hm))]
    rfl

/-- Witness for C6 (amended): the `%` of `x\%` is escaped again (preceding
backslash ignored) because no whitespace follows. -/
theorem percentPass_flank_witness :
    ('%' ∉ ("x\\".data : List Char)) ∧
    percentPass (("x\\".data : List Char) ++ '%' :: []) =
      ("x\\".data : List Char) ++
        (if matchSpaceDashStar [] then '%' :: percentPass []
         else '\\' :: '%' :: percentPass []) :=
  ⟨by decide, percentPass_flank ("x\\".data) [] (by decide)⟩

/-- Counterexample for C6 as stated: an occurrence already written as `\%`
is NOT left unchanged — the pass rewrites it to `\\%` (and a `%` followed by
whitespace and then a non-dash stays unescaped: `"% x"` is returned as is). -/
theorem percentPass_counterexample :
    percentPass ("\\%".data) = ("\\\\%".data) ∧
      percentPass ("% x".data) = ("% x".data) := by
  exact ⟨by decide, by decide⟩

/-- C8: the math postprocessor turns the standalone line `$$ x^2 $$` into
the display block `\[ x^2 \]`, and in
`Price is $5 and $$E=mc^2$$ today` it escapes the currency dollar and turns
the mid-sentence `$$E=mc^2$$` into inline `$E=mc^2$`, not display math. -/
theorem math_round_trip :
    MathTextPostProcessor_run ("$$ x^2 $$".data) = ("\\[ x^2 \\]".data) ∧
      MathTextPostProcessor_run ("Price is $5 and $$E=mc^2$$ today".data) =
        ("Price is \\$5 and $E=mc^2$ today".data) := by
  exact ⟨by decide, by decide⟩

/-- C9: in the display-math replacement `repl_1`, when the unescaped content
stripped of whitespace already starts with `\[` or `\begin`, the content is
returned without being wrapped in `\[...\]`; when moreover the content
contains no `\&` (so the unescape step is the identity), the captured group
is returned completely unchanged. -/
theorem repl_1_guard (g : List Char)
    (h : ("\\[".data).isPrefixOf (pyStrip (unescape_latex_entities g)) = true ∨
         ("\\begin".data).isPrefixOf (pyStrip (unescape_latex_entities g)) = true) :
    repl_1 g = unescape_latex_entities g ∧
      (containsSub ("\\&".data) g = false → repl_1 g = g) := by
  have hcond : (("\\[".data).isPrefixOf (pyStrip (unescape_latex_entities g)) ||
      ("\\begin".data).isPrefixOf (pyStrip (unescape_latex_entities g))) = true := by
    rw [Bool.or_eq_true]; exact h
  have hif : repl_1 g = unescape_latex_entities g := by
    show (if (("\\[".data).isPrefixOf (pyStrip (unescape_latex_entities g)) ||
        ("\\begin".data).isPrefixOf (pyStrip (unescape_latex_entities g))) = true then
          unescape_latex_entities g
        else "\\[".data ++ unescape_latex_entities g ++ "\\]".data) =
      unescape_latex_entities g
    rw [if_pos hcond]
  refine ⟨hif, fun hg => ?_⟩
  rw [hif]
  exact pyReplace_id_of_not_contains g _ _ hg

/-- Witness for C9 at the already-converted content `\[ x^2 \]`. -/
theorem repl_1_guard_witness :
    (("\\[".data).isPrefixOf (pyStrip (unescape_latex_entities ("\\[ x^2 \\]".data))) = true ∨
      ("\\begin".data).isPrefixOf (pyStrip (unescape_latex_entities ("\\[ x^2 \\]".data))) = true) ∧
    (repl_1 ("\\[ x^2 \\]".data) = unescape_latex_entities ("\\[ x^2 \\]".data) ∧
      (containsSub ("\\&".data) ("\\[ x^2 \\]".data) = false →
        repl_1 ("\\[ x^2 \\]".data) = ("\\[ x^2 \\]".data))) :=
  ⟨Or.inl (by decide), repl_1_guard ("\\[ x^2 \\]".data) (Or.inl (by decide))⟩

-- ========================= THEOREMS: ESCAPER CLAIM (C3) ===================

/-- C3 (amended): a single `escape_latex_entities` call never produces a
double backslash — each escaped `%`, `&`, `#` carries exactly one
backslash — PROVIDED the input contains no backslash and no `&amp;` entity.
(An input that already contains `\&`, or contains `&amp;` which is first
rewritten to `\&`, IS double-escaped — see the counterexample.) -/
theorem escape_latex_entities_no_double_escape (s : List Char) (h1 : '\\' ∉ s)
    (h2 : containsSub ("&amp;".data) s = false) :
    containsSub ("\\\\".data) (escape_latex_entities s) = false :=
  escape_no_double_backslash s h1 h2

/-- Witness for C3 (amended) on `a&b 100% #1`. -/
theorem escape_latex_entities_no_double_escape_witness :
    ('\\' ∉ ("a&b 100% #1".data : List Char) ∧
      containsSub ("&amp;".data) ("a&b 100% #1".data) = false) ∧
    containsSub ("\\\\".data) (escape_latex_entities ("a&b 100% #1".data)) = false :=
  ⟨⟨by decide, by decide⟩,
    escape_latex_entities_no_double_escape ("a&b 100% #1".data) (by decide) (by decide)⟩

/-- Counterexample for C3 as stated: escaping the input `&amp;` double-escapes:
`remove_html_entities` first rewrites it to `\&`, and the later `&`-replace
rewrites that `&` again, producing `\\&` (two backslashes). -/
theorem escape_latex_entities_counterexample :
    escape_latex_entities ("&amp;".data) = ("\\\\&".data) ∧
      containsSub ("\\\\&".data) (escape_latex_entities ("&amp;".data)) = true := by
  exact ⟨by decide, by decide⟩

-- ========================= THEOREMS: IMAGE CONVERTER (C2) =================

/-- Counterexample for C2 as stated: `Img2Latex.convert('<img>')` does NOT
return a figure block — the fragment `<img>` is not well-formed XML (a start
tag with no matching end tag), so the `parseString` step raises
(`no element found`) before any figure is built. -/
theorem img_convert_counterexample :
    Img2Latex_convert ("<img>".data) = .error ("no element found".data) := by
  rfl

/-- C2 (amended): on the well-formed attribute-less fragment `<img/>`, the
image converter returns the figure block whose `\includegraphics` path
argument and `\caption` argument are both empty, without raising. -/
theorem img_convert_empty_defaults :
    Img2Latex_convert ("<img/>".data) =
      .ok ("\n\\begin\x7bfigure\x7d\n\\centering\n\\includegraphics[width=\\textwidth]\x7b\x7d\n\\caption\x7b\x7d\n\\end\x7bfigure\x7d\n".data) := by
  rfl

-- ========================= THEOREMS: TREE WALKER (C10) ====================

/-- C10: for a `p` element, the walker appends a trailing newline to the
element's own text iff no direct child has tag `sup` or `em`; when such a
child is present the text is left untouched by the `p` rule. -/
theorem p_newline_rule (el : MDNode) (h : el.tag = "p".data) :
    (LaTeXTreeProcessor_step el).text =
      (if (el.children.map MDNode.tag).contains ("sup".data)
          || (el.children.map MDNode.tag).contains ("em".data) then el.text
       else el.text ++ "\n".data) := by
  obtain ⟨t, x, ch⟩ := el
  simp only [MDNode.tag] at h
  subst h
  by_cases hsup : ∃ a ∈ ch, a.tag = ("sup".data : List Char)
  · obtain ⟨a, ha, hta⟩ := hsup
    simp [LaTeXTreeProcessor_step, MDNode.text, MDNode.children]
    rw [if_neg (fun hco => (hco.1 a ha) hta), if_pos (Or.inl ⟨a, ha, hta⟩)]
  · by_cases hem : ∃ a ∈ ch, a.tag = ("em".data : List Char)
    · obtain ⟨a, ha, hta⟩ := hem
      simp [LaTeXTreeProcessor_step, MDNode.text, MDNode.children]
      rw [if_neg (fun hco => (hco.2 a ha) hta), if_pos (Or.inr ⟨a, ha, hta⟩)]
    · simp [LaTeXTreeProcessor_step, MDNode.text, MDNode.children]
      rw [if_pos ⟨fun a ha hta => hsup ⟨a, ha, hta⟩, fun a ha hta => hem ⟨a, ha, hta⟩⟩,
        if_neg (fun hor => hor.elim (fun he => hsup he) (fun he => hem he))]

/-- Witness for C10: a `p` element with an `em` child keeps its text; the
theorem instantiated at a concrete element. -/
theorem p_newline_rule_witness :
    ((MDNode.mk ("p".data) ("hi".data) [MDNode.mk ("em".data) ("x".data) []]).tag
        = "p".data) ∧
    (LaTeXTreeProcessor_step
        (MDNode.mk ("p".data) ("hi".data) [MDNode.mk ("em".data) ("x".data) []])).text =
      (if ((MDNode.mk ("p".data) ("hi".data)
              [MDNode.mk ("em".data) ("x".data) []]).children.map MDNode.tag).contains
            ("sup".data)
          || ((MDNode.mk ("p".data) ("hi".data)
              [MDNode.mk ("em".data) ("x".data) []]).children.map MDNode.tag).contains
            ("em".data) then
        (MDNode.mk ("p".data) ("hi".data) [MDNode.mk ("em".data) ("x".data) []]).text
      else (MDNode.mk ("p".data) ("hi".data)
          [MDNode.mk ("em".data) ("x".data) []]).text ++ "\n".data) :=
  ⟨rfl, p_newline_rule (MDNode.mk ("p".data) ("hi".data)
    [MDNode.mk ("em".data) ("x".data) []]) rfl⟩
